import Mathlib

/-!
# Verification of the Corblivar layout core

Shallow embedding of the Corblivar 2.5D floorplanning core
(`src/CorblivarDie.cpp`, `src/CorblivarCore.hpp`, `src/LayoutOperations.cpp`,
the `Block` class) and proofs of the specified properties.

Coordinates (C++ `double`) are embedded as rationals `ℚ`; block identities
(C++ pointers into the externally owned block registry) are embedded as
natural-number handles resolved through a registry map `ℕ → Blk`.
-/

namespace Corblivar

/-- 2D point of the `Rect` struct (`Rect.hpp`, modelled): coordinates as `ℚ`. -/
structure Pt where
  x : ℚ
  y : ℚ
deriving DecidableEq, Repr

/-- Rectangle as in `Rect.hpp`: lower-left and upper-right corner, width, height, area. -/
structure Rect where
  ll : Pt
  ur : Pt
  w : ℚ
  h : ℚ
  area : ℚ
deriving DecidableEq, Repr

instance : Inhabited Pt := ⟨⟨0, 0⟩⟩
instance : Inhabited Rect := ⟨⟨default, default, 0, 0, 0⟩⟩

/-- Modelled from the spec: `Rect.hpp` is not under src/.  "popped modules that
vertically overlap its height span" (§4.2) — the two rectangles' open y-spans overlap. -/
def rectsIntersectVertical (a b : Rect) : Bool :=
  decide (a.ll.y < b.ur.y) && decide (b.ll.y < a.ur.y)

/-- Modelled from the spec: `Rect.hpp` is not under src/.  Mirror of
`rectsIntersectVertical` for x-spans (§4.2, "the VERTICAL case is the mirror image"). -/
def rectsIntersectHorizontal (a b : Rect) : Bool :=
  decide (a.ll.x < b.ur.x) && decide (b.ll.x < a.ur.x)

/-- Modelled from the spec: `Rect.hpp` is not under src/.  "no popped module lies
strictly above it" (§4.2): `a` is entirely below `b`; when `considerIntersect` is set
the modules must additionally overlap horizontally (used for skyline-stack pruning). -/
def rectA_below_rectB (a b : Rect) (considerIntersect : Bool) : Bool :=
  decide (a.ur.y ≤ b.ll.y) && (!considerIntersect || rectsIntersectHorizontal a b)

/-- Modelled from the spec: `Rect.hpp` is not under src/.  "popped modules that still
have no module to their right" (§4.2): `a` is entirely left of `b`; when
`considerIntersect` is set the modules must additionally overlap vertically. -/
def rectA_leftOf_rectB (a b : Rect) (considerIntersect : Bool) : Bool :=
  decide (a.ur.x ≤ b.ll.x) && (!considerIntersect || rectsIntersectVertical a b)

/-- Placement direction of a tuple (`Direction.hpp`). -/
inductive Direction where
  | HORIZONTAL
  | VERTICAL
deriving DecidableEq, Repr

instance : Inhabited Direction := ⟨Direction.HORIZONTAL⟩

/-- The design block (class `Block`): mutable rectangle `bb` with its backup/best side
copies, layer assignment, placement flag, and the attributes consulted by the layout
operators.  `power_density` stands for the externally derived `power_density()` value. -/
structure Blk where
  bb : Rect
  bb_backup : Rect
  bb_best : Rect
  layer : ℤ
  placed : Bool
  soft : Bool
  floorplacement : Bool
  rotatable : Bool
  ARmin : ℚ
  ARmax : ℚ
  power_density : ℚ
deriving DecidableEq, Repr

instance : Inhabited Blk :=
  ⟨⟨default, default, default, -1, false, false, false, true, 1, 1, 0⟩⟩

/-- The corner block list (`CorblivarDie.hpp`): three index-aligned lists — block
handle `S`, direction `L`, junction count `T` — forming one tuple per block. -/
structure CornerBlockList where
  S : List ℕ
  L : List Direction
  T : List ℕ
deriving DecidableEq, Repr

namespace CornerBlockList

/-- Modelled from the spec: `CorblivarDie.hpp` is not under src/.  A sequence with no
tuples is empty (§3: the three lists are always of equal length). -/
def empty (c : CornerBlockList) : Bool :=
  c.S.isEmpty

/-- The empty corner block list (`clear()`). -/
def nil : CornerBlockList := ⟨[], [], []⟩

end CornerBlockList

instance : Inhabited CornerBlockList := ⟨CornerBlockList.nil⟩

/-- Per-layer state (`CorblivarDie.hpp`): id, current/backup/best sequences, the two
scratch skyline stacks `Hi`/`Vi` (head of list = top of stack), progress pointer `pi`
and done flag. -/
structure CorblivarDie where
  id : ℤ
  CBL : CornerBlockList
  CBLbackup : CornerBlockList
  CBLbest : CornerBlockList
  Hi : List ℕ
  Vi : List ℕ
  pi : ℕ
  done : Bool
deriving DecidableEq, Repr

instance : Inhabited CorblivarDie := ⟨⟨0, default, default, default, [], [], 0, false⟩⟩

/-- Multi-layer core state (`CorblivarCore.hpp`): the dies plus the externally owned
block registry, embedded as a map from block handle to block state. -/
structure CorblivarCore where
  dies : List CorblivarDie
  blocks : ℕ → Blk

/-- Modelled from the spec: `CorblivarDie.hpp` is not under src/.  "a progress cursor
marks how many tuples have been consumed"; "Terminal condition: cursor reaches sequence
length ⇒ layer marked done" (§4.2). -/
def updateProgressPointerFlag (die : CorblivarDie) : CorblivarDie :=
  if die.CBL.S.length ≤ die.pi + 1 then
    { die with pi := die.pi + 1, done := true }
  else
    { die with pi := die.pi + 1 }

/-- The stack-popping loop of `CorblivarDie::placeCurrentBlock`
(`while (relevBlocksCount > relevBlocks.size()) { relevBlocks.push_back(top); pop; }`):
returns the popped blocks in pop order and the remaining stack. -/
def popStack : ℕ → List ℕ → List ℕ × List ℕ
  | 0, st => ([], st)
  | _ + 1, [] => ([], [])
  | n + 1, b :: rest =>
      let r := popStack n rest
      (b :: r.1, r.2)

/-- `CorblivarDie::placeCurrentBlock` (src/src/CorblivarDie.cpp, lines 18-233), without
the debug output: decodes the current tuple of the die into absolute coordinates using
the two skyline stacks, marks the block placed and advances the progress pointer.
Returns the updated die, the updated block registry, and the placed block's handle
(`none` for the empty-die early return). -/
def placeCurrentBlock (die : CorblivarDie) (blocks : ℕ → Blk) :
    CorblivarDie × (ℕ → Blk) × Option ℕ :=
  -- sanity check for empty dies
  if die.CBL.S.isEmpty then
    ({ die with done := true }, blocks, none)
  else
    -- current tuple (accessors getBlock/getDirection/getJunctions read the three
    -- lists at the progress pointer)
    let curId := die.CBL.S.getD die.pi 0
    let cur_dir := die.CBL.L.getD die.pi Direction.HORIZONTAL
    let cur_juncts := die.CBL.T.getD die.pi 0
    let cur := blocks curId
    -- sanity check for previously placed blocks
    if cur.placed then
      (die, blocks, some curId)
    else
      match cur_dir with
      | Direction.HORIZONTAL =>
          -- pop relevant blocks from stack Hi
          let pr := popStack (min (cur_juncts + 1) die.Hi.length) die.Hi
          let relev := pr.1
          let HiRest := pr.2
          -- determine y-coordinate for lower left corner of current block
          let y : ℚ :=
            if HiRest.isEmpty then 0
            else
              match relev with
              | [] => 0
              | r0 :: rest =>
                  rest.foldl (fun acc b => min acc (blocks b).bb.ll.y) (blocks r0).bb.ll.y
          -- update block's y-coordinates
          let bb1 : Rect :=
            { cur.bb with ll := { cur.bb.ll with y := y }, ur := { cur.bb.ur with y := cur.bb.h + y } }
          -- determine x-coordinate, consider right front of blocks to be covered
          let x : ℚ := relev.foldl
            (fun acc b =>
              if rectsIntersectVertical bb1 (blocks b).bb then max acc (blocks b).bb.ur.x
              else acc) 0
          -- update block's x-coordinates
          let bb2 : Rect :=
            { bb1 with ll := { bb1.ll with x := x }, ur := { bb1.ur with x := bb1.w + x } }
          -- update vertical stack: add cur_block when no other relevant blocks are to
          -- its top side, independent of overlap in x-direction
          let add_to_stack : Bool := relev.foldl
            (fun acc b => if rectA_below_rectB bb2 (blocks b).bb false then false else acc) true
          let Vi' := if add_to_stack then curId :: die.Vi else die.Vi
          -- update horizontal stack: add relevant blocks which have no block to the
          -- right (prepending retains the pop order), then cur_block on the very front
          let toAdd : List ℕ := relev.foldl
            (fun l b => if !rectA_leftOf_rectB (blocks b).bb bb2 true then b :: l else l) []
          let Hi' := (curId :: toAdd).foldl (fun st b => b :: st) HiRest
          -- mark block as placed, increment progress pointer
          let blocks' := Function.update blocks curId { cur with bb := bb2, placed := true }
          (updateProgressPointerFlag { die with Hi := Hi', Vi := Vi' }, blocks', some curId)
      | Direction.VERTICAL =>
          -- pop relevant blocks from stack Vi
          let pr := popStack (min (cur_juncts + 1) die.Vi.length) die.Vi
          let relev := pr.1
          let ViRest := pr.2
          -- determine x-coordinate for lower left corner of current block
          let x : ℚ :=
            if ViRest.isEmpty then 0
            else
              match relev with
              | [] => 0
              | r0 :: rest =>
                  rest.foldl (fun acc b => min acc (blocks b).bb.ll.x) (blocks r0).bb.ll.x
          -- update block's x-coordinates
          let bb1 : Rect :=
            { cur.bb with ll := { cur.bb.ll with x := x }, ur := { cur.bb.ur with x := cur.bb.w + x } }
          -- determine y-coordinate, consider upper front of blocks to be covered
          let y : ℚ := relev.foldl
            (fun acc b =>
              if rectsIntersectHorizontal bb1 (blocks b).bb then max acc (blocks b).bb.ur.y
              else acc) 0
          -- update block's y-coordinates
          let bb2 : Rect :=
            { bb1 with ll := { bb1.ll with y := y }, ur := { bb1.ur with y := bb1.h + y } }
          -- update horizontal stack: add cur_block when no other relevant blocks are to
          -- its right side, independent of overlap in y-direction
          let add_to_stack : Bool := relev.foldl
            (fun acc b => if rectA_leftOf_rectB bb2 (blocks b).bb false then false else acc) true
          let Hi' := if add_to_stack then curId :: die.Hi else die.Hi
          -- update vertical stack: add relevant blocks which have no block above
          -- (prepending retains the pop order), then cur_block on the very front
          let toAdd : List ℕ := relev.foldl
            (fun l b => if !rectA_below_rectB (blocks b).bb bb2 true then b :: l else l) []
          let Vi' := (curId :: toAdd).foldl (fun st b => b :: st) ViRest
          -- mark block as placed, increment progress pointer
          let blocks' := Function.update blocks curId { cur with bb := bb2, placed := true }
          (updateProgressPointerFlag { die with Hi := Hi', Vi := Vi' }, blocks', some curId)

/-- `CorblivarCore::swapBlocks` (src/src/CorblivarCore.hpp, lines 135-154): pre-update
the two blocks' layer assignments if swapping across dies, then swap the two entries of
the block lists `S` (directions and junction counts are not touched). -/
def swapBlocks (core : CorblivarCore) (die1 die2 tuple1 tuple2 : ℕ) : CorblivarCore :=
  let d1 := core.dies.getD die1 default
  let d2 := core.dies.getD die2 default
  let s1 := d1.CBL.S.getD tuple1 0
  let s2 := d2.CBL.S.getD tuple2 0
  -- pre-update layer assignments if swapping across dies
  let blocks' :=
    if die1 ≠ die2 then
      Function.update
        (Function.update core.blocks s1 { core.blocks s1 with layer := (die2 : ℤ) })
        s2 { (Function.update core.blocks s1 { core.blocks s1 with layer := (die2 : ℤ) }) s2 with
              layer := (die1 : ℤ) }
    else core.blocks
  -- perform swap (std::swap on the two S entries)
  if die1 = die2 then
    let d1' := { d1 with CBL := { d1.CBL with S := (d1.CBL.S.set tuple1 s2).set tuple2 s1 } }
    { core with dies := core.dies.set die1 d1', blocks := blocks' }
  else
    let d1' := { d1 with CBL := { d1.CBL with S := d1.CBL.S.set tuple1 s2 } }
    let d2' := { d2 with CBL := { d2.CBL with S := d2.CBL.S.set tuple2 s1 } }
    { core with dies := (core.dies.set die1 d1').set die2 d2', blocks := blocks' }

/-- `CorblivarCore::moveTuples` (src/src/CorblivarCore.hpp, lines 157-219): relocate the
tuple at `tuple1` of `die1` to position `tuple2` of `die2`.  Within one die the source
is removed after insertion, with the erase offset shifted by one when `tuple1 > tuple2`;
across dies the moved block's layer field is pre-updated to `die2`. -/
def moveTuples (core : CorblivarCore) (die1 die2 tuple1 tuple2 : ℕ) : CorblivarCore :=
  let d1 := core.dies.getD die1 default
  let d2 := core.dies.getD die2 default
  -- move within same die
  if die1 = die2 then
    -- temporary copy of source data
    let t1_S := d1.CBL.S.getD tuple1 0
    let t1_L := d1.CBL.L.getD tuple1 Direction.HORIZONTAL
    let t1_T := d1.CBL.T.getD tuple1 0
    -- insert tuple1 w/ offset tuple2, then erase tuple1, adapting the offset in case
    -- tuple2 comes before tuple1 (insertion shifted everything by one)
    let eraseAt := if tuple1 > tuple2 then tuple1 + 1 else tuple1
    let d1' := { d1 with CBL :=
      { S := (d1.CBL.S.insertIdx tuple2 t1_S).eraseIdx eraseAt
        L := (d1.CBL.L.insertIdx tuple2 t1_L).eraseIdx eraseAt
        T := (d1.CBL.T.insertIdx tuple2 t1_T).eraseIdx eraseAt } }
    { core with dies := core.dies.set die1 d1' }
  -- move across dies
  else
    let t1_S := d1.CBL.S.getD tuple1 0
    let t1_L := d1.CBL.L.getD tuple1 Direction.HORIZONTAL
    let t1_T := d1.CBL.T.getD tuple1 0
    -- pre-update layer assignment for block to be moved
    let blocks' := Function.update core.blocks t1_S { core.blocks t1_S with layer := (die2 : ℤ) }
    let d2' := { d2 with CBL :=
      { S := d2.CBL.S.insertIdx tuple2 t1_S
        L := d2.CBL.L.insertIdx tuple2 t1_L
        T := d2.CBL.T.insertIdx tuple2 t1_T } }
    let d1' := { d1 with CBL :=
      { S := d1.CBL.S.eraseIdx tuple1
        L := d1.CBL.L.eraseIdx tuple1
        T := d1.CBL.T.eraseIdx tuple1 } }
    { core with dies := (core.dies.set die2 d2').set die1 d1', blocks := blocks' }

/-- `CorblivarCore::switchInsertionDirection` (src/src/CorblivarCore.hpp, lines 222-238):
toggle the direction of the tuple at (`die`, `tuple`). -/
def switchInsertionDirection (core : CorblivarCore) (die tuple : ℕ) : CorblivarCore :=
  let d := core.dies.getD die default
  let newDir :=
    if d.CBL.L.getD tuple Direction.HORIZONTAL = Direction.VERTICAL then Direction.HORIZONTAL
    else Direction.VERTICAL
  let d' := { d with CBL := { d.CBL with L := d.CBL.L.set tuple newDir } }
  { core with dies := core.dies.set die d' }

/-- `CorblivarCore::switchTupleJunctions` (src/src/CorblivarCore.hpp, lines 257-269):
store junction count `juncts` (an `int`, converted to the `unsigned` entry) for the
tuple at (`die`, `tuple`). -/
def switchTupleJunctions (core : CorblivarCore) (die tuple : ℕ) (juncts : ℤ) : CorblivarCore :=
  let d := core.dies.getD die default
  let d' := { d with CBL := { d.CBL with T := d.CBL.T.set tuple juncts.toNat } }
  { core with dies := core.dies.set die d' }

/-- One die's share of `CorblivarCore::backupCBLs` (src/src/CorblivarCore.hpp,
lines 292-313): duplicate the current sequence into `CBLbackup` (clear + push_back of
every entry amounts to a copy) and back up each referenced block's `bb` into its
`bb_backup` side field. -/
def backupDie (acc : (ℕ → Blk) × List CorblivarDie) (die : CorblivarDie) :
    (ℕ → Blk) × List CorblivarDie :=
  let blocks' := die.CBL.S.foldl
    (fun bs b => Function.update bs b { bs b with bb_backup := (bs b).bb }) acc.1
  (blocks', acc.2 ++ [{ die with CBLbackup := die.CBL }])

/-- `CorblivarCore::backupCBLs` (src/src/CorblivarCore.hpp, lines 292-313). -/
def backupCBLs (core : CorblivarCore) : CorblivarCore :=
  let r := core.dies.foldl backupDie (core.blocks, [])
  { dies := r.2, blocks := r.1 }

/-- One die's share of `CorblivarCore::restoreCBLs` (src/src/CorblivarCore.hpp,
lines 315-338): replace the current sequence by `CBLbackup` (clear + push_back of every
entry amounts to a copy), restoring each referenced block's `bb` from `bb_backup` and
re-asserting its layer assignment. -/
def restoreDie (acc : (ℕ → Blk) × List CorblivarDie) (die : CorblivarDie) :
    (ℕ → Blk) × List CorblivarDie :=
  let blocks' := die.CBLbackup.S.foldl
    (fun bs b => Function.update bs b { bs b with bb := (bs b).bb_backup, layer := die.id }) acc.1
  (blocks', acc.2 ++ [{ die with CBL := die.CBLbackup }])

/-- `CorblivarCore::restoreCBLs` (src/src/CorblivarCore.hpp, lines 315-338). -/
def restoreCBLs (core : CorblivarCore) : CorblivarCore :=
  let r := core.dies.foldl restoreDie (core.blocks, [])
  { dies := r.2, blocks := r.1 }

/-- `CorblivarCore::storeBestCBLs` (src/src/CorblivarCore.hpp, lines 341-362):
duplicate the current sequence into `CBLbest` and back up each referenced block's `bb`
into its `bb_best` side field. -/
def storeBestDie (acc : (ℕ → Blk) × List CorblivarDie) (die : CorblivarDie) :
    (ℕ → Blk) × List CorblivarDie :=
  let blocks' := die.CBL.S.foldl
    (fun bs b => Function.update bs b { bs b with bb_best := (bs b).bb }) acc.1
  (blocks', acc.2 ++ [{ die with CBLbest := die.CBL }])

/-- `CorblivarCore::storeBestCBLs` (src/src/CorblivarCore.hpp, lines 341-362). -/
def storeBestCBLs (core : CorblivarCore) : CorblivarCore :=
  let r := core.dies.foldl storeBestDie (core.blocks, [])
  { dies := r.2, blocks := r.1 }

/-- One die's share of `CorblivarCore::applyBestCBLs` (src/src/CorblivarCore.hpp,
lines 367-405): clear the current sequence; if `CBLbest` is empty count the die as
empty and continue, otherwise refill the current sequence from `CBLbest`, restoring
each referenced block's `bb` from `bb_best` and re-asserting its layer assignment.
The third accumulator component counts the `empty_dies`. -/
def applyBestDie (acc : (ℕ → Blk) × List CorblivarDie × ℕ) (die : CorblivarDie) :
    (ℕ → Blk) × List CorblivarDie × ℕ :=
  if die.CBLbest.empty then
    (acc.1, acc.2.1 ++ [{ die with CBL := CornerBlockList.nil }], acc.2.2 + 1)
  else
    let blocks' := die.CBLbest.S.foldl
      (fun bs b => Function.update bs b { bs b with bb := (bs b).bb_best, layer := die.id }) acc.1
    (blocks', acc.2.1 ++ [{ die with CBL := die.CBLbest }], acc.2.2)

/-- `CorblivarCore::applyBestCBLs` (src/src/CorblivarCore.hpp, lines 367-405), without
the logging: returns `false` only if all dies' `CBLbest` are empty, together with the
updated state. -/
def applyBestCBLs (core : CorblivarCore) : Bool × CorblivarCore :=
  let r := core.dies.foldl applyBestDie (core.blocks, [], 0)
  (decide (r.2.2 ≠ core.dies.length), { dies := r.2.1, blocks := r.1 })

/-- `Block::shapeByWidthHeight` (the `Block` class, src/unnamed/part_000,
lines 162-182): apply new `width`/`height` keeping the lower-left corner fixed, in case
the resulting aspect ratio is allowed and the block is rotatable; otherwise leave the
block unchanged.  Returns the C++ boolean result together with the (possibly updated)
block. -/
def shapeByWidthHeight (blk : Blk) (width height : ℚ) : Bool × Blk :=
  let AR := width / height
  if decide (blk.ARmin ≤ AR) && decide (AR ≤ blk.ARmax) && blk.rotatable then
    (true,
      { blk with bb :=
        { blk.bb with
            ur := { x := blk.bb.ll.x + width, y := blk.bb.ll.y + height }
            w := width
            h := height } })
  else
    (false, blk)

/-- The layout-operation parameters consulted by `LayoutOperations`
(`this->parameters`): layer count and the two policy switches used by
move/swap operand validation. -/
structure LayoutParameters where
  layers : ℕ
  power_aware_block_handling : Bool
  floorplacement : Bool
deriving DecidableEq, Repr

/-- Memorized operands of the last successful operation (`last_op_die1` …
`last_op_juncts` of `LayoutOperations`), used by the revert paths. -/
structure LastOp where
  die1 : ℕ
  die2 : ℕ
  tuple1 : ℕ
  tuple2 : ℕ
  juncts : ℤ
deriving DecidableEq, Repr

/-- Op-code `OP_SWAP_BLOCKS` (src/src/LayoutOperations.cpp comments: "op-code: 1"). -/
def OP_SWAP_BLOCKS : ℕ := 1

/-- Op-code `OP_MOVE_TUPLE` (src/src/LayoutOperations.cpp comments: "op-code: 2"). -/
def OP_MOVE_TUPLE : ℕ := 2

/-- `Math::randI(x, y)`, a uniform draw from `[x, y)`, embedded with the raw draw `r`
supplied by an oracle: the result is folded into the requested range. -/
def randI (x y r : ℕ) : ℕ := x + r % (y - x)

/-- The `while (tuple1 == tuple2) { tuple2 = randI(0, size); }` loop of
`LayoutOperations::performOpMoveOrSwapBlocks`, with oracle `rnd` consumed from index
`k` on and explicit `fuel` (the loop terminates with probability one; `none` models
running out of fuel, which the C++ loop cannot observe). -/
def whileTupleEq (rnd : ℕ → ℕ) (size : ℕ) (tuple1 : ℤ) :
    ℕ → ℤ → ℕ → Option (ℤ × ℕ)
  | 0, tuple2, k => if tuple1 = tuple2 then none else some (tuple2, k)
  | fuel + 1, tuple2, k =>
      if tuple1 = tuple2 then
        whileTupleEq rnd size tuple1 fuel ((randI 0 size (rnd k) : ℕ) : ℤ) (k + 1)
      else some (tuple2, k)

/-- Operand selection step of the layout operators: a preassigned operand (≠ -1) is
kept, a `-1` request is served from the oracle draw and advances the oracle cursor. -/
def selectOperand (preassigned : ℤ) (draw : ℕ) (bound : ℕ) (k : ℕ) : ℤ × ℕ :=
  if preassigned = -1 then (((randI 0 bound draw : ℕ) : ℤ), k + 1) else (preassigned, k)

/-- The straight-line tail of `LayoutOperations::performOpMoveOrSwapBlocks`
(src/src/LayoutOperations.cpp, lines 598-635, fresh path): power-aware layering check,
floorplacement ban, then the actual move/swap. -/
def moveOrSwapApply (params : LayoutParameters) (mode : ℕ) (SA_phase_one : Bool)
    (core : CorblivarCore) (die1v die2v tuple1v tuple2v : ℤ) : Bool × CorblivarCore :=
  let d1 := core.dies.getD die1v.toNat default
  let d2 := core.dies.getD die2v.toNat default
  let b1 := core.blocks (d1.CBL.S.getD tuple1v.toNat 0)
  let b2 := core.blocks (d2.CBL.S.getD tuple2v.toNat 0)
  -- for power-aware block handling, ensure that blocks w/ lower power density remain
  -- in lower layer
  if params.power_aware_block_handling &&
      ((decide (die1v < die2v) && decide (b1.power_density < b2.power_density)) ||
       (decide (die2v < die1v) && decide (b2.power_density < b1.power_density))) then
    (false, core)
  -- for SA phase one, floorplacement blocks should not be moved/swapped
  else if params.floorplacement && SA_phase_one && (b1.floorplacement || b2.floorplacement) then
    (false, core)
  -- perform move/swap; applies only to valid candidates
  else if mode == OP_MOVE_TUPLE then
    (true, moveTuples core die1v.toNat die2v.toNat tuple1v.toNat tuple2v.toNat)
  else if mode == OP_SWAP_BLOCKS then
    (true, swapBlocks core die1v.toNat die2v.toNat tuple1v.toNat tuple2v.toNat)
  else
    (true, core)

/-- `LayoutOperations::performOpMoveOrSwapBlocks` (src/src/LayoutOperations.cpp,
lines 551-636).  Operands preassigned by the caller are passed as-is; a value `-1`
requests a random draw, taken from the oracle `rnd` at consecutive indices.  Returns
`none` only when the tuple-distinctness loop runs out of `fuel`; otherwise the C++
boolean result, the resulting core state, and the selected operands. -/
def performOpMoveOrSwapBlocks (params : LayoutParameters) (last : LastOp) (mode : ℕ)
    (revert SA_phase_one : Bool) (core : CorblivarCore) (die1 die2 tuple1 tuple2 : ℤ)
    (rnd : ℕ → ℕ) (fuel : ℕ) : Option (Bool × CorblivarCore × ℤ × ℤ × ℤ × ℤ) :=
  if !revert then
    -- randomly select dies, if not preassigned
    let die1p := selectOperand die1 (rnd 0) params.layers 0
    let die1v := die1p.1
    let die2p := selectOperand die2 (rnd die1p.2) params.layers die1p.2
    let die2v := die2p.1
    let d1 := core.dies.getD die1v.toNat default
    let d2 := core.dies.getD die2v.toNat default
    -- sanity checks for empty (origin) dies
    if (mode == OP_MOVE_TUPLE && d1.CBL.empty) ||
       (mode == OP_SWAP_BLOCKS && (d1.CBL.empty || d2.CBL.empty)) then
      some (false, core, die1v, die2v, tuple1, tuple2)
    else
      -- randomly select tuples, if not preassigned
      let tuple1p := selectOperand tuple1 (rnd die2p.2) d1.CBL.S.length die2p.2
      let tuple1v := tuple1p.1
      let tuple2p := selectOperand tuple2 (rnd tuple1p.2) d2.CBL.S.length tuple1p.2
      let tuple2v := tuple2p.1
      -- in case of swapping/moving w/in same die, ensure that tuples are different;
      -- only possible given at least two tuples
      if die1v = die2v then
        if d1.CBL.S.length < 2 then
          some (false, core, die1v, die2v, tuple1v, tuple2v)
        else
          match whileTupleEq rnd d1.CBL.S.length tuple1v fuel tuple2v tuple2p.2 with
          | none => none
          | some r =>
              let app := moveOrSwapApply params mode SA_phase_one core die1v die2v tuple1v r.1
              some (app.1, app.2, die1v, die2v, tuple1v, r.1)
      else
        let app := moveOrSwapApply params mode SA_phase_one core die1v die2v tuple1v tuple2v
        some (app.1, app.2, die1v, die2v, tuple1v, tuple2v)
  else
    -- revert last op
    if mode == OP_MOVE_TUPLE then
      some (true, moveTuples core last.die2 last.die1 last.tuple2 last.tuple1,
            die1, die2, tuple1, tuple2)
    else if mode == OP_SWAP_BLOCKS then
      some (true, swapBlocks core last.die1 last.die2 last.tuple1 last.tuple2,
            die1, die2, tuple1, tuple2)
    else
      some (true, core, die1, die2, tuple1, tuple2)

/-- `LayoutOperations::performOpSwitchTupleJunctions` (src/src/LayoutOperations.cpp,
lines 479-522).  `randBval` is the oracle for the `Math::randB()` draw; `rnd` supplies
the die/tuple draws when those operands are passed as `-1`.  Returns the C++ boolean
result, the resulting core, and the selected `die1`, `tuple1`, `juncts` out-values. -/
def performOpSwitchTupleJunctions (params : LayoutParameters) (last : LastOp)
    (revert : Bool) (core : CorblivarCore) (die1 tuple1 : ℤ) (randBval : Bool)
    (rnd : ℕ → ℕ) : Bool × CorblivarCore × ℤ × ℤ × ℤ :=
  if !revert then
    -- randomly select die, if not preassigned
    let die1p := if die1 = -1 then (((randI 0 params.layers (rnd 0) : ℕ) : ℤ), 1) else (die1, 0)
    let die1v := die1p.1
    let d1 := core.dies.getD die1v.toNat default
    -- sanity check for empty dies
    if d1.CBL.empty then
      (false, core, die1v, tuple1, -1)
    else
      -- randomly select tuple, if not preassigned
      let tuple1v :=
        if tuple1 = -1 then ((randI 0 d1.CBL.S.length (rnd die1p.2) : ℕ) : ℤ) else tuple1
      -- juncts is for return-by-reference, new_juncts for updating junctions
      let juncts : ℤ := (d1.CBL.T.getD tuple1v.toNat 0 : ℤ)
      -- junctions must be geq 0
      let new_juncts : ℤ :=
        if juncts = 0 then juncts + 1
        else if randBval then juncts + 1 else juncts - 1
      (true, switchTupleJunctions core die1v.toNat tuple1v.toNat new_juncts,
        die1v, tuple1v, juncts)
  else
    (true, switchTupleJunctions core last.die1 last.tuple1 last.juncts, die1, tuple1, -1)

/-! ## Concrete fixtures used by the witness theorems -/

/-- A rectangle of the given width/height anchored at the origin. -/
def mkRect (w h : ℚ) : Rect :=
  { ll := ⟨0, 0⟩, ur := ⟨w, h⟩, w := w, h := h, area := w * h }

/-- A soft, rotatable block of the given dimensions, layer and power density, with
aspect-ratio window `[1/2, 2]`. -/
def mkBlk (w h : ℚ) (layer : ℤ) (pd : ℚ) : Blk :=
  { bb := mkRect w h, bb_backup := default, bb_best := default, layer := layer
    placed := false, soft := true, floorplacement := false, rotatable := true
    ARmin := 1/2, ARmax := 2, power_density := pd }

/-- Example registry: block 0 is 10×4, block 1 is 5×4, block 2 is 3×3 on layer 1. -/
def exBlocks : ℕ → Blk := fun n =>
  if n = 0 then mkBlk 10 4 0 1
  else if n = 1 then mkBlk 5 4 0 2
  else if n = 2 then mkBlk 3 3 1 3
  else default

/-- Example die 0: the spec's concrete scenario — two HORIZONTAL, junction-count-0
tuples for blocks 0 and 1. -/
def exDie0 : CorblivarDie :=
  { id := 0
    CBL := { S := [0, 1], L := [Direction.HORIZONTAL, Direction.HORIZONTAL], T := [0, 0] }
    CBLbackup := default, CBLbest := default, Hi := [], Vi := [], pi := 0, done := false }

/-- Example die 1: a single VERTICAL tuple for block 2. -/
def exDie1 : CorblivarDie :=
  { id := 1
    CBL := { S := [2], L := [Direction.VERTICAL], T := [1] }
    CBLbackup := default, CBLbest := default, Hi := [], Vi := [], pi := 0, done := false }

/-- Example two-layer core state. -/
def exCore : CorblivarCore := { dies := [exDie0, exDie1], blocks := exBlocks }

/-- Example core whose die 0 has a best snapshot recorded while die 1 has none. -/
def exCoreBest : CorblivarCore :=
  { dies :=
      [{ exDie0 with CBLbest := exDie0.CBL },
       { exDie1 with CBL := CornerBlockList.nil }]
    blocks := exBlocks }

/-- Default layout parameters for witnesses: two layers, no policy switches. -/
def exParams : LayoutParameters :=
  { layers := 2, power_aware_block_handling := false, floorplacement := false }

/-- Dummy memorized operands for witnesses (fresh paths never read them). -/
def exLast : LastOp := { die1 := 0, die2 := 0, tuple1 := 0, tuple2 := 0, juncts := 0 }

/-- Example mid-decode die: block 0 already placed, block 1 (HORIZONTAL, 0 junctions)
up next at the progress pointer; both skyline stacks hold block 0. -/
def exDieStep : CorblivarDie :=
  { id := 0
    CBL := { S := [0, 1], L := [Direction.HORIZONTAL, Direction.HORIZONTAL], T := [0, 0] }
    CBLbackup := default, CBLbest := default, Hi := [0], Vi := [0], pi := 1, done := false }

/-- Registry for the mid-decode example: block 0 placed at (0,0)-(10,4), block 1
pending with width 5, height 4. -/
def exBlocksStep : ℕ → Blk := fun n =>
  if n = 0 then { mkBlk 10 4 0 1 with placed := true }
  else if n = 1 then mkBlk 5 4 0 2
  else default

/-! ## Theorems -/

/-- The `empty_dies` counter accumulated by the `applyBestCBLs` fold counts the dies
whose best snapshot is empty. -/
theorem applyBest_fold_count (dies : List CorblivarDie) (bs : ℕ → Blk)
    (acc : List CorblivarDie) (n : ℕ) :
    (dies.foldl applyBestDie (bs, acc, n)).2.2 =
      n + dies.countP (fun d => d.CBLbest.empty) := by
  induction dies generalizing bs acc n with
  | nil => simp
  | cons d ds ih =>
      by_cases h : d.CBLbest.empty
      · simp [applyBestDie, h, List.countP_cons, ih]
        omega
      · simp [applyBestDie, h, List.countP_cons, ih]

/-- The dies list produced by the `applyBestCBLs` fold: each die's current sequence is
cleared, then refilled from `CBLbest` unless that snapshot is empty. -/
theorem applyBest_fold_dies (dies : List CorblivarDie) (bs : ℕ → Blk)
    (acc : List CorblivarDie) (n : ℕ) :
    (dies.foldl applyBestDie (bs, acc, n)).2.1 =
      acc ++ dies.map (fun d =>
        if d.CBLbest.empty then { d with CBL := CornerBlockList.nil }
        else { d with CBL := d.CBLbest }) := by
  induction dies generalizing bs acc n with
  | nil => simp
  | cons d ds ih =>
      by_cases h : d.CBLbest.empty
      · simp [applyBestDie, h, ih]
      · simp [applyBestDie, h, ih]

/-- C4: `applyBestCBLs` returns false if and only if every layer's best snapshot
sequence is empty (no best solution was ever recorded for any layer). -/
theorem C4_applyBestCBLs_false_iff (core : CorblivarCore) :
    (applyBestCBLs core).1 = false ↔ ∀ die ∈ core.dies, die.CBLbest.empty = true := by
  unfold applyBestCBLs
  simp only [applyBest_fold_count, Nat.zero_add, decide_eq_false_iff_not, ne_eq,
    Decidable.not_not]
  rw [List.countP_eq_length]

/-- C9: `applyBestCBLs` clears every die's current sequence before checking whether
that die's best snapshot is empty; consequently, after a call that returns true, every
die whose best snapshot is empty is left with an empty current sequence. -/
theorem C9_applyBestCBLs_clears (core : CorblivarCore)
    (_hret : (applyBestCBLs core).1 = true) (i : ℕ) (hi : i < core.dies.length)
    (hempty : (core.dies.getD i default).CBLbest.empty = true) :
    ((applyBestCBLs core).2.dies.getD i default).CBL = CornerBlockList.nil := by
  unfold applyBestCBLs
  simp only [applyBest_fold_dies, List.nil_append]
  rw [List.getD_eq_getElem _ _ (by simpa using hi), List.getElem_map]
  rw [List.getD_eq_getElem _ _ hi] at hempty
  simp [hempty]

/-- Witness for C9: on `exCoreBest` the call returns true, and die 1 (whose best
snapshot is empty) ends with an empty current sequence. -/
theorem C9_witness :
    ((applyBestCBLs exCoreBest).2.dies.getD 1 default).CBL = CornerBlockList.nil :=
  C9_applyBestCBLs_clears exCoreBest (by decide) 1 (by decide) (by decide)

/-- C10: `Block::shapeByWidthHeight(width, height)` applies the new dimensions
(keeping the lower-left corner fixed and updating width, height, and upper-right
corner) and returns true if and only if the block is rotatable and `width/height` lies
within the block's aspect-ratio bounds; otherwise it returns false and the block's
rectangle is completely unchanged. -/
theorem C10_shapeByWidthHeight_spec (blk : Blk) (width height : ℚ) :
    ((shapeByWidthHeight blk width height).1 = true ↔
      blk.rotatable = true ∧ blk.ARmin ≤ width / height ∧ width / height ≤ blk.ARmax) ∧
    ((shapeByWidthHeight blk width height).1 = true →
      (shapeByWidthHeight blk width height).2 =
        { blk with bb :=
          { blk.bb with
              ur := { x := blk.bb.ll.x + width, y := blk.bb.ll.y + height }
              w := width
              h := height } }) ∧
    ((shapeByWidthHeight blk width height).1 = false →
      (shapeByWidthHeight blk width height).2 = blk) := by
  cases hb : (decide (blk.ARmin ≤ width / height) &&
      decide (width / height ≤ blk.ARmax) && blk.rotatable) with
  | true =>
      have h' : (blk.ARmin ≤ width / height ∧ width / height ≤ blk.ARmax) ∧
          blk.rotatable = true := by simpa using hb
      refine ⟨?_, fun _ => ?_, fun hf => ?_⟩
      · simp [shapeByWidthHeight, hb, h'.1.1, h'.1.2, h'.2]
      · simp [shapeByWidthHeight, hb]
      · simp [shapeByWidthHeight, hb] at hf
  | false =>
      refine ⟨?_, fun ht => ?_, fun _ => ?_⟩
      · simp only [shapeByWidthHeight, hb, Bool.false_eq_true, if_false, false_iff]
        rintro ⟨h3, h1, h2⟩
        simp [h1, h2, h3] at hb
      · simp [shapeByWidthHeight, hb] at ht
      · simp [shapeByWidthHeight, hb]

/-- Witness for C10: reshaping the example 10×4 block (aspect-ratio window `[1/2,2]`)
to 1×4 violates the aspect-ratio lower bound and leaves the block unchanged. -/
theorem C10_witness :
    (shapeByWidthHeight (mkBlk 10 4 0 1) 1 4).2 = mkBlk 10 4 0 1 :=
  (C10_shapeByWidthHeight_spec (mkBlk 10 4 0 1) 1 4).2.2
    (by norm_num [shapeByWidthHeight, mkBlk])

/-- C8: for every valid (layer, index) operand, the fresh (non-revert) junction-switch
operation sets a tuple whose current junction count is 0 to exactly 1, sets a nonzero
count `c` to `c+1` or `c-1` according to the boolean draw, and the integer value stored
back into the sequence is never negative (the stored ℕ entry is exactly the computed
integer). -/
theorem C8_switchTupleJunctions_spec (params : LayoutParameters) (last : LastOp)
    (core : CorblivarCore) (die1 tuple1 : ℕ) (randBval : Bool) (rnd : ℕ → ℕ)
    (hd : die1 < core.dies.length)
    (hne : (core.dies.getD die1 default).CBL.S.isEmpty = false)
    (ht : tuple1 < (core.dies.getD die1 default).CBL.T.length) :
    let r := performOpSwitchTupleJunctions params last false core (die1 : ℤ) (tuple1 : ℤ)
      randBval rnd
    let c := (core.dies.getD die1 default).CBL.T.getD tuple1 0
    let newT := (r.2.1.dies.getD die1 default).CBL.T.getD tuple1 0
    r.1 = true ∧
    newT = (if c = 0 then 1 else if randBval then c + 1 else c - 1) ∧
    (newT : ℤ) = (if (c : ℤ) = 0 then (c : ℤ) + 1
                  else if randBval then (c : ℤ) + 1 else (c : ℤ) - 1) := by
  intro r c newT
  have hd1 : ¬((die1 : ℤ) = -1) := by omega
  have ht1 : ¬((tuple1 : ℤ) = -1) := by omega
  have hres : r = (true,
      switchTupleJunctions core die1 tuple1
        (if (c : ℤ) = 0 then (c : ℤ) + 1 else if randBval then (c : ℤ) + 1 else (c : ℤ) - 1),
      (die1 : ℤ), (tuple1 : ℤ), (c : ℤ)) := by
    show performOpSwitchTupleJunctions params last false core _ _ randBval rnd = _
    rw [performOpSwitchTupleJunctions]
    simp only [Bool.not_false, if_pos rfl, hd1, if_false, ite_false, CornerBlockList.empty,
      hne, Int.toNat_natCast, ht1, Bool.false_eq_true]
    simp only [c]
    split_ifs <;> rfl
  have hTnew : (r.2.1.dies.getD die1 default).CBL.T =
      (core.dies.getD die1 default).CBL.T.set tuple1
        (if (c : ℤ) = 0 then (c : ℤ) + 1
         else if randBval then (c : ℤ) + 1 else (c : ℤ) - 1).toNat := by
    rw [hres]
    show ((core.dies.set die1 _).getD die1 default).CBL.T = _
    rw [List.getD_eq_getElem _ _ (by simpa using hd), List.getElem_set_self]
  have hstored : newT =
      (if (c : ℤ) = 0 then (c : ℤ) + 1
       else if randBval then (c : ℤ) + 1 else (c : ℤ) - 1).toNat := by
    show (r.2.1.dies.getD die1 default).CBL.T.getD tuple1 0 = _
    rw [hTnew, List.getD_eq_getElem _ _ (by simpa using ht), List.getElem_set_self]
  refine ⟨by rw [hres], ?_, ?_⟩
  · rw [hstored]
    rcases Nat.eq_zero_or_pos c with h | h
    · simp [h]
    · have h1 : ¬((c : ℤ) = 0) := by omega
      have h2 : ¬(c = 0) := by omega
      cases randBval <;> simp [h1, h2]
  · rw [hstored]
    rcases Nat.eq_zero_or_pos c with h | h
    · simp [h]
    · have h1 : ¬((c : ℤ) = 0) := by omega
      cases randBval
      · simp [h1]
        omega
      · simp [h1]

/-- Witness for C8: on the example core, switching the junctions of tuple 1 on die 0
(current count 0) stores exactly 1. -/
theorem C8_witness :
    (performOpSwitchTupleJunctions exParams exLast false exCore 0 1 false (fun _ => 0)).1
        = true ∧
    ((performOpSwitchTupleJunctions exParams exLast false exCore 0 1 false
        (fun _ => 0)).2.1.dies.getD 0 default).CBL.T.getD 1 0 = 1 := by
  have h := C8_switchTupleJunctions_spec exParams exLast exCore 0 1 false (fun _ => 0)
    (by decide) (by decide) (by decide)
  exact ⟨h.1, by simpa using h.2.1⟩

/-- Length bookkeeping of the same-die relocation: insertion at `t2` followed by
erasure at the shift-corrected source index preserves the list length. -/
theorem moveIdx_length {α : Type} (l : List α) (a : α) (t1 t2 : ℕ)
    (h1 : t1 < l.length) (h2 : t2 ≤ l.length) :
    ((l.insertIdx t2 a).eraseIdx (if t1 > t2 then t1 + 1 else t1)).length = l.length := by
  rw [List.length_eraseIdx, List.length_insertIdx t2 l h2]
  split_ifs <;> omega

/-- Content bookkeeping of the same-die relocation: the moved element ends up at the
destination index when moving towards the front, and one position before it when
moving towards the back. -/
theorem moveIdx_getD {α : Type} (l : List α) (d : α) (t1 t2 : ℕ)
    (h1 : t1 < l.length) (h2 : t2 < l.length) (hne : t1 ≠ t2) :
    ((l.insertIdx t2 (l.getD t1 d)).eraseIdx (if t1 > t2 then t1 + 1 else t1)).getD
      (if t2 < t1 then t2 else t2 - 1) d = l.getD t1 d := by
  rcases Nat.lt_or_ge t2 t1 with hlt | hge
  · rw [if_pos (show t1 > t2 from hlt), if_pos hlt]
    have hlen2 : ((l.insertIdx t2 (l.getD t1 d)).eraseIdx (t1 + 1)).length = l.length := by
      rw [List.length_eraseIdx, List.length_insertIdx t2 l (le_of_lt h2)]
      split_ifs <;> omega
    rw [List.getD_eq_getElem _ _ (by omega)]
    rw [List.getElem_eraseIdx]
    rw [dif_pos (by omega : t2 < t1 + 1)]
    exact List.getElem_insertIdx_self _ _ _ (le_of_lt h2)
  · have hlt2 : t1 < t2 := by omega
    rw [if_neg (by omega : ¬t1 > t2), if_neg (by omega : ¬t2 < t1)]
    have hlen2 : ((l.insertIdx t2 (l.getD t1 d)).eraseIdx t1).length = l.length := by
      rw [List.length_eraseIdx, List.length_insertIdx t2 l (le_of_lt h2)]
      split_ifs <;> omega
    rw [List.getD_eq_getElem _ _ (by omega)]
    rw [List.getElem_eraseIdx]
    rw [dif_neg (by omega : ¬t2 - 1 < t1)]
    have h21 : t2 - 1 + 1 = t2 := by omega
    simp only [h21]
    exact List.getElem_insertIdx_self _ _ _ (le_of_lt h2)

/-- Counterexample to C5 as stated: on the example core, relocating the tuple at
index 0 of die 0 to destination index 1 leaves the sequence `[0, 1]` unchanged — the
relocated module (block 0) is NOT at the destination index 1 (it is at index 0, i.e.
destination minus one). -/
theorem C5_counterexample :
    ((moveTuples exCore 0 0 0 1).dies.getD 0 default).CBL.S.getD 1 0 ≠ 0 := by
  decide

/-- C5 (amended): same-layer relocation with `die1 == die2` leaves the layer's total
tuple count unchanged and the relocated tuple's (module, direction, junction count)
exactly as before, placed at the destination index when the destination is before the
source, and at destination − 1 when the destination is after the source (the
list-shrink of the removal); the source removal is corrected by an index shift of one
exactly when the destination index is numerically before the source. -/
theorem C5_moveTuples_amended (core : CorblivarCore) (die tuple1 tuple2 : ℕ)
    (hd : die < core.dies.length)
    (hlenL : (core.dies.getD die default).CBL.L.length =
      (core.dies.getD die default).CBL.S.length)
    (hlenT : (core.dies.getD die default).CBL.T.length =
      (core.dies.getD die default).CBL.S.length)
    (ht1 : tuple1 < (core.dies.getD die default).CBL.S.length)
    (ht2 : tuple2 < (core.dies.getD die default).CBL.S.length)
    (hne : tuple1 ≠ tuple2) :
    let d := core.dies.getD die default
    let r := (moveTuples core die die tuple1 tuple2).dies.getD die default
    let dst := if tuple2 < tuple1 then tuple2 else tuple2 - 1
    r.CBL.S.length = d.CBL.S.length ∧
    r.CBL.L.length = d.CBL.L.length ∧
    r.CBL.T.length = d.CBL.T.length ∧
    r.CBL.S.getD dst 0 = d.CBL.S.getD tuple1 0 ∧
    r.CBL.L.getD dst Direction.HORIZONTAL = d.CBL.L.getD tuple1 Direction.HORIZONTAL ∧
    r.CBL.T.getD dst 0 = d.CBL.T.getD tuple1 0 := by
  intro d r dst
  have hL : d.CBL.L.length = d.CBL.S.length := hlenL
  have hT : d.CBL.T.length = d.CBL.S.length := hlenT
  have hs1 : tuple1 < d.CBL.S.length := ht1
  have hs2 : tuple2 < d.CBL.S.length := ht2
  have hr : r = { d with CBL :=
      { S := (d.CBL.S.insertIdx tuple2 (d.CBL.S.getD tuple1 0)).eraseIdx
          (if tuple1 > tuple2 then tuple1 + 1 else tuple1)
        L := (d.CBL.L.insertIdx tuple2 (d.CBL.L.getD tuple1 Direction.HORIZONTAL)).eraseIdx
          (if tuple1 > tuple2 then tuple1 + 1 else tuple1)
        T := (d.CBL.T.insertIdx tuple2 (d.CBL.T.getD tuple1 0)).eraseIdx
          (if tuple1 > tuple2 then tuple1 + 1 else tuple1) } } := by
    show (moveTuples core die die tuple1 tuple2).dies.getD die default = _
    rw [moveTuples]
    simp only [eq_self_iff_true, ite_true]
    rw [List.getD_eq_getElem _ _ (by simpa using hd), List.getElem_set_self]
  rw [hr]
  refine ⟨moveIdx_length _ _ _ _ ht1 (le_of_lt ht2),
    moveIdx_length _ _ _ _ (by omega) (by omega),
    moveIdx_length _ _ _ _ (by omega) (by omega),
    moveIdx_getD _ _ _ _ ht1 ht2 hne,
    moveIdx_getD _ _ _ _ (by omega) (by omega) hne,
    moveIdx_getD _ _ _ _ (by omega) (by omega) hne⟩

/-- Witness for C5 (amended): relocating the tuple at index 1 of die 0 of the example
core to destination index 0 puts module 1 at index 0, with count 2 preserved. -/
theorem C5_witness :
    ((moveTuples exCore 0 0 1 0).dies.getD 0 default).CBL.S.length =
      (exCore.dies.getD 0 default).CBL.S.length ∧
    ((moveTuples exCore 0 0 1 0).dies.getD 0 default).CBL.S.getD 0 0 =
      (exCore.dies.getD 0 default).CBL.S.getD 1 0 := by
  have h := C5_moveTuples_amended exCore 0 1 0 (by decide) (by decide) (by decide)
    (by decide) (by decide) (by decide)
  exact ⟨h.1, by simpa using h.2.2.2.1⟩

/-- Counterexample to C6 as stated: swapping the tuple at index 1 of die 0 (module 1,
HORIZONTAL, 0 junctions) with the tuple at index 0 of die 1 (module 2, VERTICAL,
1 junction) moves only the module references: die 0's tuple 1 keeps junction count 0
and direction HORIZONTAL instead of receiving the exchanged tuple's (1, VERTICAL). -/
theorem C6_counterexample :
    ((swapBlocks exCore 0 1 1 0).dies.getD 0 default).CBL.S.getD 1 0 = 2 ∧
    ((swapBlocks exCore 0 1 1 0).dies.getD 0 default).CBL.T.getD 1 0 ≠ 1 ∧
    ((swapBlocks exCore 0 1 1 0).dies.getD 0 default).CBL.L.getD 0 Direction.HORIZONTAL
      ≠ Direction.VERTICAL := by
  refine ⟨?_, ?_, ?_⟩ <;> decide

/-- C6 (amended): for two different layers and valid tuple indices referencing
distinct modules, `swapBlocks` exchanges the two module references between the layers'
block lists — the direction and junction-count lists stay in place — and sets each
moved module's layer field to the destination layer's id (the first module's layer
field becomes the second die's id and vice versa) before the exchange. -/
theorem C6_swapBlocks_amended (core : CorblivarCore) (die1 die2 tuple1 tuple2 : ℕ)
    (hne : die1 ≠ die2) (hd1 : die1 < core.dies.length) (hd2 : die2 < core.dies.length)
    (hs : (core.dies.getD die1 default).CBL.S.getD tuple1 0 ≠
      (core.dies.getD die2 default).CBL.S.getD tuple2 0) :
    let r := swapBlocks core die1 die2 tuple1 tuple2
    let s1 := (core.dies.getD die1 default).CBL.S.getD tuple1 0
    let s2 := (core.dies.getD die2 default).CBL.S.getD tuple2 0
    (r.dies.getD die1 default).CBL.S = (core.dies.getD die1 default).CBL.S.set tuple1 s2 ∧
    (r.dies.getD die2 default).CBL.S = (core.dies.getD die2 default).CBL.S.set tuple2 s1 ∧
    (r.dies.getD die1 default).CBL.L = (core.dies.getD die1 default).CBL.L ∧
    (r.dies.getD die1 default).CBL.T = (core.dies.getD die1 default).CBL.T ∧
    (r.dies.getD die2 default).CBL.L = (core.dies.getD die2 default).CBL.L ∧
    (r.dies.getD die2 default).CBL.T = (core.dies.getD die2 default).CBL.T ∧
    r.blocks s1 = { core.blocks s1 with layer := (die2 : ℤ) } ∧
    r.blocks s2 = { core.blocks s2 with layer := (die1 : ℤ) } := by
  intro r s1 s2
  have hget1 : r.dies.getD die1 default =
      { core.dies.getD die1 default with CBL :=
        { core.dies.getD die1 default |>.CBL with
            S := (core.dies.getD die1 default).CBL.S.set tuple1 s2 } } := by
    show (swapBlocks core die1 die2 tuple1 tuple2).dies.getD die1 default = _
    rw [swapBlocks]
    simp only [hne, ne_eq, not_false_eq_true, ite_true, ite_false, if_neg, if_pos]
    rw [List.getD_eq_getElem _ _ (by simpa using hd1)]
    rw [List.getElem_set_ne (Ne.symm hne) , List.getElem_set_self]
  have hget2 : r.dies.getD die2 default =
      { core.dies.getD die2 default with CBL :=
        { core.dies.getD die2 default |>.CBL with
            S := (core.dies.getD die2 default).CBL.S.set tuple2 s1 } } := by
    show (swapBlocks core die1 die2 tuple1 tuple2).dies.getD die2 default = _
    rw [swapBlocks]
    simp only [hne, ne_eq, not_false_eq_true, ite_true, ite_false, if_neg, if_pos]
    rw [List.getD_eq_getElem _ _ (by simpa using hd2), List.getElem_set_self]
  have hblocks : r.blocks =
      Function.update
        (Function.update core.blocks s1 { core.blocks s1 with layer := (die2 : ℤ) })
        s2 { (Function.update core.blocks s1
              { core.blocks s1 with layer := (die2 : ℤ) }) s2 with layer := (die1 : ℤ) } := by
    show (swapBlocks core die1 die2 tuple1 tuple2).blocks = _
    rw [swapBlocks]
    simp only [hne, ne_eq, not_false_eq_true, ite_true, ite_false, if_neg, if_pos]
  refine ⟨by rw [hget1], by rw [hget2], by rw [hget1], by rw [hget1], by rw [hget2],
    by rw [hget2], ?_, ?_⟩
  · rw [hblocks, Function.update_noteq hs, Function.update_same]
  · rw [hblocks, Function.update_same, Function.update_noteq (Ne.symm hs)]

/-- Witness for C6 (amended): swapping tuple 0 of die 0 (module 0) with tuple 0 of
die 1 (module 2) of the example core yields block lists `[2, 1]` and `[0]`, and sets
block 0's layer to 1 and block 2's layer to 0. -/
theorem C6_witness :
    ((swapBlocks exCore 0 1 0 0).dies.getD 0 default).CBL.S = [2, 1] ∧
    ((swapBlocks exCore 0 1 0 0).blocks 0).layer = 1 ∧
    ((swapBlocks exCore 0 1 0 0).blocks 2).layer = 0 := by
  have h := C6_swapBlocks_amended exCore 0 1 0 0 (by decide) (by decide) (by decide)
    (by decide)
  refine ⟨by simpa using h.1, ?_, ?_⟩
  · have h1 : (swapBlocks exCore 0 1 0 0).blocks 0 =
        { exCore.blocks 0 with layer := (1 : ℤ) } := by
      simpa [exCore, exDie0, exDie1] using h.2.2.2.2.2.2.1
    rw [h1]
  · have h2 : (swapBlocks exCore 0 1 0 0).blocks 2 =
        { exCore.blocks 2 with layer := (0 : ℤ) } := by
      simpa [exCore, exDie0, exDie1] using h.2.2.2.2.2.2.2
    rw [h2]

/-- If the move/swap tail reports failure it has not touched the core state. -/
theorem moveOrSwapApply_false (params : LayoutParameters) (mode : ℕ)
    (SA_phase_one : Bool) (core : CorblivarCore) (die1v die2v tuple1v tuple2v : ℤ)
    (h : (moveOrSwapApply params mode SA_phase_one core die1v die2v tuple1v tuple2v).1
      = false) :
    (moveOrSwapApply params mode SA_phase_one core die1v die2v tuple1v tuple2v).2
      = core := by
  unfold moveOrSwapApply at h ⊢
  simp only [Bool.and_eq_true, Bool.or_eq_true, decide_eq_true_eq, beq_iff_eq] at h ⊢
  split_ifs at h ⊢ <;> simp_all

/-- C7: whenever fresh (non-revert) operand selection in `performOpMoveOrSwapBlocks`
fails — empty target layer, same-layer operation on a layer with fewer than two
tuples, power-aware layering violation, or floorplacement ban — the function returns
false with the core state unchanged: no sequence store entry or module field has been
mutated (operand validation precedes mutation). -/
theorem C7_moveOrSwap_atomic (params : LayoutParameters) (last : LastOp) (mode : ℕ)
    (SA_phase_one : Bool) (core : CorblivarCore) (die1 die2 tuple1 tuple2 : ℤ)
    (rnd : ℕ → ℕ) (fuel : ℕ) (r : Bool × CorblivarCore × ℤ × ℤ × ℤ × ℤ)
    (hres : performOpMoveOrSwapBlocks params last mode false SA_phase_one core
      die1 die2 tuple1 tuple2 rnd fuel = some r)
    (hfail : r.1 = false) : r.2.1 = core := by
  rw [performOpMoveOrSwapBlocks] at hres
  simp only [Bool.not_false, ite_true] at hres
  split at hres
  · -- empty-die validation failed: the returned state is the input state
    obtain rfl := Option.some.inj hres
    rfl
  · split at hres
    · -- same-die case
      split at hres
      · -- fewer than two tuples: the returned state is the input state
        obtain rfl := Option.some.inj hres
        rfl
      · -- tuple-distinctness loop
        split at hres
        · exact absurd hres (by simp)
        · obtain rfl := Option.some.inj hres
          exact moveOrSwapApply_false _ _ _ _ _ _ _ _ hfail
    · -- different dies
      obtain rfl := Option.some.inj hres
      exact moveOrSwapApply_false _ _ _ _ _ _ _ _ hfail

/-- Witness for C7: moving a tuple out of the empty die 1 of `exCoreBest` fails and
leaves the state untouched. -/
theorem C7_witness :
    ((false, exCoreBest, (1 : ℤ), (0 : ℤ), (0 : ℤ), (0 : ℤ)) :
        Bool × CorblivarCore × ℤ × ℤ × ℤ × ℤ).2.1 = exCoreBest :=
  C7_moveOrSwap_atomic exParams exLast OP_MOVE_TUPLE false exCoreBest 1 0 0 0
    (fun _ => 0) 1 (false, exCoreBest, 1, 0, 0, 0) (by rfl) (by rfl)

/-- Pointwise effect of the per-die backup loop on the block registry: members of the
processed sequence get their `bb` duplicated into `bb_backup`; everything else is left
alone. -/
theorem backupS_apply (S : List ℕ) (bs : ℕ → Blk) (k : ℕ) :
    (S.foldl (fun m b => Function.update m b { m b with bb_backup := (m b).bb }) bs) k =
      if k ∈ S then { bs k with bb_backup := (bs k).bb } else bs k := by
  induction S generalizing bs with
  | nil => simp
  | cons b S ih =>
      simp only [List.foldl_cons, ih, List.mem_cons]
      by_cases hk : k = b
      · subst hk
        by_cases hmem : k ∈ S <;> simp [hmem, Function.update_same]
      · rw [Function.update_noteq hk]
        by_cases hmem : k ∈ S <;> simp [hmem, hk]

/-- Pointwise effect of the per-die restore loop on the block registry: members of the
processed sequence get `bb` restored from `bb_backup` and the layer re-asserted;
everything else is left alone. -/
theorem restoreS_apply (S : List ℕ) (lid : ℤ) (bs : ℕ → Blk) (k : ℕ) :
    (S.foldl (fun m b =>
        Function.update m b { m b with bb := (m b).bb_backup, layer := lid }) bs) k =
      if k ∈ S then { bs k with bb := (bs k).bb_backup, layer := lid } else bs k := by
  induction S generalizing bs with
  | nil => simp
  | cons b S ih =>
      simp only [List.foldl_cons, ih, List.mem_cons]
      by_cases hk : k = b
      · subst hk
        by_cases hmem : k ∈ S <;> simp [hmem, Function.update_same]
      · rw [Function.update_noteq hk]
        by_cases hmem : k ∈ S <;> simp [hmem, hk]

/-- The dies produced by the `backupCBLs` fold: each die's `CBLbackup` becomes a copy
of its current sequence. -/
theorem backup_fold_dies (dies : List CorblivarDie) (bs : ℕ → Blk)
    (acc : List CorblivarDie) :
    (dies.foldl backupDie (bs, acc)).2 =
      acc ++ dies.map (fun d => { d with CBLbackup := d.CBL }) := by
  induction dies generalizing bs acc with
  | nil => simp
  | cons d ds ih => simp [backupDie, ih]

/-- Pointwise effect of the whole `backupCBLs` fold on the block registry. -/
theorem backup_fold_blocks (dies : List CorblivarDie) (bs : ℕ → Blk)
    (acc : List CorblivarDie) (k : ℕ) :
    (dies.foldl backupDie (bs, acc)).1 k =
      if ∃ d ∈ dies, k ∈ d.CBL.S then { bs k with bb_backup := (bs k).bb } else bs k := by
  induction dies generalizing bs acc with
  | nil => simp
  | cons d ds ih =>
      simp only [List.foldl_cons, List.mem_cons]
      rw [show (backupDie (bs, acc) d) =
        (d.CBL.S.foldl (fun m b => Function.update m b { m b with bb_backup := (m b).bb }) bs,
         acc ++ [{ d with CBLbackup := d.CBL }]) from rfl]
      rw [ih, backupS_apply]
      by_cases hd : k ∈ d.CBL.S
      · by_cases hds : ∃ x ∈ ds, k ∈ x.CBL.S <;> simp [hd, hds]
      · by_cases hds : ∃ x ∈ ds, k ∈ x.CBL.S
        · simp only [hd, if_neg, if_pos, hds]
          have : (∃ x, (x = d ∨ x ∈ ds) ∧ k ∈ x.CBL.S) := by
            obtain ⟨x, hx, hkx⟩ := hds
            exact ⟨x, Or.inr hx, hkx⟩
          simp [this, hd]
        · have : ¬(∃ x, (x = d ∨ x ∈ ds) ∧ k ∈ x.CBL.S) := by
            rintro ⟨x, hx | hx, hkx⟩
            · exact hd (hx ▸ hkx)
            · exact hds ⟨x, hx, hkx⟩
          simp [hd, hds, this]

/-- The dies produced by the `restoreCBLs` fold: each die's current sequence becomes a
copy of its `CBLbackup`. -/
theorem restore_fold_dies (dies : List CorblivarDie) (bs : ℕ → Blk)
    (acc : List CorblivarDie) :
    (dies.foldl restoreDie (bs, acc)).2 =
      acc ++ dies.map (fun d => { d with CBL := d.CBLbackup }) := by
  induction dies generalizing bs acc with
  | nil => simp
  | cons d ds ih => simp [restoreDie, ih]

/-- Pointwise effect of the whole `restoreCBLs` fold on the block registry: `bb` comes
back from `bb_backup` for every block referenced by some backup sequence, and the
`bb_backup` side field itself is never modified. -/
theorem restore_fold_blocks (dies : List CorblivarDie) (bs : ℕ → Blk)
    (acc : List CorblivarDie) (k : ℕ) :
    ((dies.foldl restoreDie (bs, acc)).1 k).bb =
      (if ∃ d ∈ dies, k ∈ d.CBLbackup.S then (bs k).bb_backup else (bs k).bb) ∧
    ((dies.foldl restoreDie (bs, acc)).1 k).bb_backup = (bs k).bb_backup := by
  induction dies generalizing bs acc with
  | nil => simp
  | cons d ds ih =>
      simp only [List.foldl_cons, List.mem_cons]
      rw [show (restoreDie (bs, acc) d) =
        (d.CBLbackup.S.foldl (fun m b =>
            Function.update m b { m b with bb := (m b).bb_backup, layer := d.id }) bs,
         acc ++ [{ d with CBL := d.CBLbackup }]) from rfl]
      obtain ⟨ih1, ih2⟩ := ih (d.CBLbackup.S.foldl (fun m b =>
          Function.update m b { m b with bb := (m b).bb_backup, layer := d.id }) bs)
        (acc ++ [{ d with CBL := d.CBLbackup }])
      rw [ih1, ih2, restoreS_apply]
      by_cases hd : k ∈ d.CBLbackup.S
      · have hex : ∃ x, (x = d ∨ x ∈ ds) ∧ k ∈ x.CBLbackup.S := ⟨d, Or.inl rfl, hd⟩
        by_cases hds : ∃ x ∈ ds, k ∈ x.CBLbackup.S <;> simp [hd, hds, hex]
      · by_cases hds : ∃ x ∈ ds, k ∈ x.CBLbackup.S
        · have hex : ∃ x, (x = d ∨ x ∈ ds) ∧ k ∈ x.CBLbackup.S := by
            obtain ⟨x, hx, hkx⟩ := hds
            exact ⟨x, Or.inr hx, hkx⟩
          simp [hd, hds, hex]
        · have hnex : ¬(∃ x, (x = d ∨ x ∈ ds) ∧ k ∈ x.CBLbackup.S) := by
            rintro ⟨x, hx | hx, hkx⟩
            · exact hd (hx ▸ hkx)
            · exact hds ⟨x, hx, hkx⟩
          simp [hd, hds, hnex]

/-- C3: for every core state in which each module's layer field equals the id of the
die whose current sequence contains it, `backupCBLs()` immediately followed by
`restoreCBLs()` leaves every layer's three parallel sequence lists and every referenced
module's rectangle identical to the pre-backup state. -/
theorem C3_backup_restore_roundtrip (core : CorblivarCore)
    (_hlayer : ∀ die ∈ core.dies, ∀ b ∈ die.CBL.S, (core.blocks b).layer = die.id) :
    let core2 := restoreCBLs (backupCBLs core)
    core2.dies.length = core.dies.length ∧
    (∀ i < core.dies.length,
      (core2.dies.getD i default).CBL = (core.dies.getD i default).CBL) ∧
    (∀ die ∈ core.dies, ∀ b ∈ die.CBL.S,
      (core2.blocks b).bb = (core.blocks b).bb) := by
  intro core2
  have hdies1 : (backupCBLs core).dies =
      core.dies.map (fun d => { d with CBLbackup := d.CBL }) := by
    show (core.dies.foldl backupDie (core.blocks, [])).2 = _
    rw [backup_fold_dies]
    simp
  have hblocks1 : ∀ k, (backupCBLs core).blocks k =
      if ∃ d ∈ core.dies, k ∈ d.CBL.S then
        { core.blocks k with bb_backup := (core.blocks k).bb }
      else core.blocks k := by
    intro k
    show (core.dies.foldl backupDie (core.blocks, [])).1 k = _
    rw [backup_fold_blocks]
  have hdies2 : core2.dies = ((backupCBLs core).dies).map (fun d => { d with CBL := d.CBLbackup }) := by
    show ((backupCBLs core).dies.foldl restoreDie ((backupCBLs core).blocks, [])).2 = _
    rw [restore_fold_dies]
    simp
  refine ⟨?_, ?_, ?_⟩
  · rw [hdies2, hdies1]
    simp
  · intro i hi
    rw [hdies2, hdies1]
    rw [List.getD_eq_getElem _ _ (by simpa using hi), List.getElem_map, List.getElem_map,
      List.getD_eq_getElem _ _ hi]
  · intro die hdie b hb
    have hmem : ∃ d ∈ core.dies, b ∈ d.CBL.S := ⟨die, hdie, hb⟩
    have hbb : (core2.blocks b).bb =
        (if ∃ d ∈ (backupCBLs core).dies, b ∈ d.CBLbackup.S then
          ((backupCBLs core).blocks b).bb_backup else ((backupCBLs core).blocks b).bb) :=
      (restore_fold_blocks (backupCBLs core).dies (backupCBLs core).blocks [] b).1
    rw [hbb]
    have hmem2 : ∃ d ∈ (backupCBLs core).dies, b ∈ d.CBLbackup.S := by
      rw [hdies1]
      refine ⟨{ die with CBLbackup := die.CBL }, List.mem_map_of_mem _ hdie, hb⟩
    rw [if_pos hmem2, hblocks1, if_pos hmem]

/-- Witness for C3: on the example core (whose layer fields are consistent with the
die assignment), backup followed by restore reproduces die 0's sequence and block 0's
rectangle. -/
theorem C3_witness :
    ((restoreCBLs (backupCBLs exCore)).dies.getD 0 default).CBL =
      (exCore.dies.getD 0 default).CBL ∧
    ((restoreCBLs (backupCBLs exCore)).blocks 0).bb = (exCore.blocks 0).bb := by
  have h := C3_backup_restore_roundtrip exCore (by decide)
  exact ⟨h.2.1 0 (by decide), h.2.2 exDie0 (by decide) 0 (by decide)⟩

/-- The popping loop pops exactly the first `n` stack entries, leaving the rest. -/
theorem popStack_eq (n : ℕ) (l : List ℕ) : popStack n l = (l.take n, l.drop n) := by
  induction n generalizing l with
  | zero => simp [popStack]
  | succ n ih =>
      cases l with
      | nil => simp [popStack]
      | cons b rest => simp [popStack, ih]

/-- The guarded max-accumulation loop is the max-fold over the filtered projections. -/
theorem foldl_max_filter_map {α : Type} (p : α → Bool) (g : α → ℚ) (l : List α) (a : ℚ) :
    l.foldl (fun acc b => if p b then max acc (g b) else acc) a =
      ((l.filter p).map g).foldl max a := by
  induction l generalizing a with
  | nil => rfl
  | cons b l ih => by_cases hb : p b <;> simp [hb, ih]

/-- The flag-clearing loop computes the conjunction of the negated predicate. -/
theorem foldl_flag_all {α : Type} (p : α → Bool) (l : List α) (acc : Bool) :
    l.foldl (fun acc b => if p b then false else acc) acc =
      (acc && l.all (fun b => !p b)) := by
  induction l generalizing acc with
  | nil => simp
  | cons b l ih =>
      rw [List.foldl_cons, List.all_cons]
      by_cases hb : p b
      · rw [if_pos hb, ih, hb]
        simp
      · rw [if_neg hb, ih]
        rw [Bool.not_eq_true] at hb
        rw [hb]
        simp

/-- The guarded prepend loop produces the reversed filtered list in front of the
accumulator. -/
theorem foldl_keep {α : Type} (q : α → Bool) (l : List α) (init : List α) :
    l.foldl (fun acc b => if q b then b :: acc else acc) init =
      (l.filter q).reverse ++ init := by
  induction l generalizing init with
  | nil => simp
  | cons b l ih => by_cases hb : q b <;> simp [hb, ih]

/-- Pushing a list of entries onto a stack one-by-one prepends their reverse. -/
theorem foldl_push {α : Type} (l : List α) (st : List α) :
    l.foldl (fun s b => b :: s) st = l.reverse ++ st := by
  induction l generalizing st with
  | nil => simp
  | cons b l ih => simp [ih]

/-- A min-fold lands on its seed or on a list element. -/
theorem foldl_min_mem {α : Type} [LinearOrder α] (a : α) (l : List α) :
    l.foldl min a ∈ a :: l := by
  induction l generalizing a with
  | nil => simp
  | cons b l ih =>
      simp only [List.foldl_cons]
      have h := ih (min a b)
      rcases List.mem_cons.mp h with h | h
      · rcases min_choice a b with hm | hm <;> rw [h, hm]
        · exact List.mem_cons_self _ _
        · exact List.mem_cons_of_mem _ (List.mem_cons_self _ _)
      · exact List.mem_cons_of_mem _ (List.mem_cons_of_mem _ h)

/-- A min-fold is a lower bound of its seed and all list elements. -/
theorem foldl_min_le {α : Type} [LinearOrder α] (a : α) (l : List α) :
    ∀ v ∈ a :: l, l.foldl min a ≤ v := by
  induction l generalizing a with
  | nil =>
      intro v hv
      simp only [List.mem_singleton] at hv
      simp [hv]
  | cons b l ih =>
      intro v hv
      simp only [List.foldl_cons]
      have hfold : l.foldl min (min a b) ≤ min a b :=
        ih (min a b) _ (List.mem_cons_self _ _)
      rcases List.mem_cons.mp hv with h | hv2
      · rw [h]
        exact hfold.trans (min_le_left a b)
      rcases List.mem_cons.mp hv2 with h | hv3
      · rw [h]
        exact hfold.trans (min_le_right a b)
      · exact ih (min a b) v (List.mem_cons_of_mem _ hv3)

/-- A max-fold lands on its seed or on a list element. -/
theorem foldl_max_mem {α : Type} [LinearOrder α] (a : α) (l : List α) :
    l.foldl max a ∈ a :: l := by
  induction l generalizing a with
  | nil => simp
  | cons b l ih =>
      simp only [List.foldl_cons]
      have h := ih (max a b)
      rcases List.mem_cons.mp h with h | h
      · rcases max_choice a b with hm | hm <;> rw [h, hm]
        · exact List.mem_cons_self _ _
        · exact List.mem_cons_of_mem _ (List.mem_cons_self _ _)
      · exact List.mem_cons_of_mem _ (List.mem_cons_of_mem _ h)

/-- A max-fold is an upper bound of its seed and all list elements. -/
theorem foldl_max_ge {α : Type} [LinearOrder α] (a : α) (l : List α) :
    ∀ v ∈ a :: l, v ≤ l.foldl max a := by
  induction l generalizing a with
  | nil =>
      intro v hv
      simp only [List.mem_singleton] at hv
      simp [hv]
  | cons b l ih =>
      intro v hv
      simp only [List.foldl_cons]
      have hfold : max a b ≤ l.foldl max (max a b) :=
        ih (max a b) _ (List.mem_cons_self _ _)
      rcases List.mem_cons.mp hv with h | hv2
      · rw [h]
        exact (le_max_left a b).trans hfold
      rcases List.mem_cons.mp hv2 with h | hv3
      · rw [h]
        exact (le_max_right a b).trans hfold
      · exact ih (max a b) v (List.mem_cons_of_mem _ hv3)

/-- A zero-seeded max-fold over a nonempty list of nonnegative values is the maximum
of the list. -/
theorem foldl_max_zero_mem (l : List ℚ) (hl : l ≠ []) (hnn : ∀ v ∈ l, 0 ≤ v) :
    l.foldl max 0 ∈ l ∧ ∀ v ∈ l, v ≤ l.foldl max 0 := by
  have hmem := foldl_max_mem 0 l
  have hge := foldl_max_ge 0 l
  constructor
  · rcases List.mem_cons.mp hmem with h0 | h
    · obtain ⟨v0, hv0⟩ := List.exists_mem_of_ne_nil l hl
      have hle : v0 ≤ 0 := h0 ▸ hge v0 (List.mem_cons_of_mem _ hv0)
      have hv00 : v0 = 0 := le_antisymm hle (hnn v0 hv0)
      rw [h0, ← hv00]
      exact hv0
    · exact h
  · intro v hv
    exact hge v (List.mem_cons_of_mem _ hv)

/-- Closed form of the HORIZONTAL decoding step: popped prefix/untouched suffix of
the `Hi` stack, minimum seed-fold for the bottom edge, filtered maximum for the left
edge, conditional push to `Vi`, and the `Hi` push-back as filter ++ new block ++
remainder. -/
theorem placeCurrentBlock_H_eq (die : CorblivarDie) (blocks : ℕ → Blk)
    (hpi : die.pi < die.CBL.S.length)
    (hdir : die.CBL.L.getD die.pi Direction.HORIZONTAL = Direction.HORIZONTAL)
    (hplaced : (blocks (die.CBL.S.getD die.pi 0)).placed = false) :
    placeCurrentBlock die blocks =
      (let curId := die.CBL.S.getD die.pi 0
       let j := die.CBL.T.getD die.pi 0
       let n := min (j + 1) die.Hi.length
       let popped := die.Hi.take n
       let rest := die.Hi.drop n
       let y : ℚ :=
         if rest.isEmpty then 0
         else
           match popped with
           | [] => 0
           | r0 :: rs => rs.foldl (fun acc b => min acc (blocks b).bb.ll.y) (blocks r0).bb.ll.y
       let bb1 : Rect :=
         { (blocks curId).bb with
             ll := { (blocks curId).bb.ll with y := y },
             ur := { (blocks curId).bb.ur with y := (blocks curId).bb.h + y } }
       let x : ℚ := ((popped.filter (fun b => rectsIntersectVertical bb1 (blocks b).bb)).map
           (fun b => (blocks b).bb.ur.x)).foldl max 0
       let bb2 : Rect :=
         { bb1 with
             ll := { bb1.ll with x := x },
             ur := { bb1.ur with x := bb1.w + x } }
       (updateProgressPointerFlag { die with
          Hi := popped.filter (fun b => !rectA_leftOf_rectB (blocks b).bb bb2 true) ++
            curId :: rest,
          Vi := if popped.all (fun b => !rectA_below_rectB bb2 (blocks b).bb false) then
            curId :: die.Vi else die.Vi },
        Function.update blocks curId { blocks curId with bb := bb2, placed := true },
        some curId)) := by
  have hne : die.CBL.S.isEmpty = false := by
    cases hS : die.CBL.S
    · rw [hS] at hpi
      simp at hpi
    · simp [hS]
  rw [placeCurrentBlock]
  simp only [hne, Bool.false_eq_true, if_false, hplaced, hdir, popStack_eq,
    foldl_max_filter_map, foldl_flag_all, Bool.true_and, foldl_keep, foldl_push,
    List.append_nil, List.reverse_cons, List.reverse_reverse, List.singleton_append,
    List.append_assoc, List.cons_append, List.nil_append]

/-- Closed form of the VERTICAL decoding step, the mirror image of
`placeCurrentBlock_H_eq` with axes and stacks swapped. -/
theorem placeCurrentBlock_V_eq (die : CorblivarDie) (blocks : ℕ → Blk)
    (hpi : die.pi < die.CBL.S.length)
    (hdir : die.CBL.L.getD die.pi Direction.HORIZONTAL = Direction.VERTICAL)
    (hplaced : (blocks (die.CBL.S.getD die.pi 0)).placed = false) :
    placeCurrentBlock die blocks =
      (let curId := die.CBL.S.getD die.pi 0
       let j := die.CBL.T.getD die.pi 0
       let n := min (j + 1) die.Vi.length
       let popped := die.Vi.take n
       let rest := die.Vi.drop n
       let x : ℚ :=
         if rest.isEmpty then 0
         else
           match popped with
           | [] => 0
           | r0 :: rs => rs.foldl (fun acc b => min acc (blocks b).bb.ll.x) (blocks r0).bb.ll.x
       let bb1 : Rect :=
         { (blocks curId).bb with
             ll := { (blocks curId).bb.ll with x := x },
             ur := { (blocks curId).bb.ur with x := (blocks curId).bb.w + x } }
       let y : ℚ := ((popped.filter (fun b => rectsIntersectHorizontal bb1 (blocks b).bb)).map
           (fun b => (blocks b).bb.ur.y)).foldl max 0
       let bb2 : Rect :=
         { bb1 with
             ll := { bb1.ll with y := y },
             ur := { bb1.ur with y := bb1.h + y } }
       (updateProgressPointerFlag { die with
          Hi := if popped.all (fun b => !rectA_leftOf_rectB bb2 (blocks b).bb false) then
            curId :: die.Hi else die.Hi,
          Vi := popped.filter (fun b => !rectA_below_rectB (blocks b).bb bb2 true) ++
            curId :: rest },
        Function.update blocks curId { blocks curId with bb := bb2, placed := true },
        some curId)) := by
  have hne : die.CBL.S.isEmpty = false := by
    cases hS : die.CBL.S
    · rw [hS] at hpi
      simp at hpi
    · simp [hS]
  rw [placeCurrentBlock]
  simp only [hne, Bool.false_eq_true, if_false, hplaced, hdir, popStack_eq,
    foldl_max_filter_map, foldl_flag_all, Bool.true_and, foldl_keep, foldl_push,
    List.append_nil, List.reverse_cons, List.reverse_reverse, List.singleton_append,
    List.append_assoc, List.cons_append, List.nil_append]

/-- Advancing the progress pointer does not touch the horizontal skyline stack. -/
theorem updatePPF_Hi (d : CorblivarDie) : (updateProgressPointerFlag d).Hi = d.Hi := by
  rw [updateProgressPointerFlag]
  split_ifs <;> rfl

/-- Advancing the progress pointer does not touch the vertical skyline stack. -/
theorem updatePPF_Vi (d : CorblivarDie) : (updateProgressPointerFlag d).Vi = d.Vi := by
  rw [updateProgressPointerFlag]
  split_ifs <;> rfl

/-- A conditional push lands the new entry on top exactly when the guard holds. -/
theorem push_iff (curId : ℕ) (Vi popped : List ℕ) (p : ℕ → Bool) :
    (if popped.all (fun b => !p b) then curId :: Vi else Vi) = curId :: Vi ↔
      ∀ b ∈ popped, p b = false := by
  split
  next hall =>
    simp only [List.all_eq_true, Bool.not_eq_true'] at hall
    exact iff_of_true rfl hall
  next hall =>
    simp only [List.all_eq_true, Bool.not_eq_true'] at hall
    exact ⟨fun h => (List.cons_ne_self _ _ h.symm).elim, fun h => absurd h hall⟩

/-- A conditional push either pushes one entry or leaves the stack alone. -/
theorem push_or (curId : ℕ) (Vi popped : List ℕ) (p : ℕ → Bool) :
    (if popped.all (fun b => !p b) then curId :: Vi else Vi) = curId :: Vi ∨
      (if popped.all (fun b => !p b) then curId :: Vi else Vi) = Vi := by
  split
  · exact Or.inl rfl
  · exact Or.inr rfl

/-- C2: after placing a HORIZONTAL tuple's module, the module is pushed onto the
vertical (other-direction) skyline stack if and only if no popped module lies strictly
above it, and the horizontal (same-direction) skyline stack receives the popped modules
that still have no module to their right — in their relative pop order — followed
(deeper in the stack) by the new module and the untouched remainder; the VERTICAL case
is symmetric with axes and stacks swapped. -/
theorem C2_placeCurrentBlock_stacks (die : CorblivarDie) (blocks : ℕ → Blk)
    (hpi : die.pi < die.CBL.S.length)
    (hplaced : (blocks (die.CBL.S.getD die.pi 0)).placed = false) :
    (die.CBL.L.getD die.pi Direction.HORIZONTAL = Direction.HORIZONTAL →
      ((placeCurrentBlock die blocks).1.Vi = die.CBL.S.getD die.pi 0 :: die.Vi ↔
        ∀ b ∈ die.Hi.take (min (die.CBL.T.getD die.pi 0 + 1) die.Hi.length),
          rectA_below_rectB
            ((placeCurrentBlock die blocks).2.1 (die.CBL.S.getD die.pi 0)).bb
            (blocks b).bb false = false) ∧
      ((placeCurrentBlock die blocks).1.Vi = die.CBL.S.getD die.pi 0 :: die.Vi ∨
        (placeCurrentBlock die blocks).1.Vi = die.Vi) ∧
      (placeCurrentBlock die blocks).1.Hi =
        (die.Hi.take (min (die.CBL.T.getD die.pi 0 + 1) die.Hi.length)).filter
          (fun b => !rectA_leftOf_rectB (blocks b).bb
            ((placeCurrentBlock die blocks).2.1 (die.CBL.S.getD die.pi 0)).bb true) ++
        die.CBL.S.getD die.pi 0 ::
          die.Hi.drop (min (die.CBL.T.getD die.pi 0 + 1) die.Hi.length)) ∧
    (die.CBL.L.getD die.pi Direction.HORIZONTAL = Direction.VERTICAL →
      ((placeCurrentBlock die blocks).1.Hi = die.CBL.S.getD die.pi 0 :: die.Hi ↔
        ∀ b ∈ die.Vi.take (min (die.CBL.T.getD die.pi 0 + 1) die.Vi.length),
          rectA_leftOf_rectB
            ((placeCurrentBlock die blocks).2.1 (die.CBL.S.getD die.pi 0)).bb
            (blocks b).bb false = false) ∧
      ((placeCurrentBlock die blocks).1.Hi = die.CBL.S.getD die.pi 0 :: die.Hi ∨
        (placeCurrentBlock die blocks).1.Hi = die.Hi) ∧
      (placeCurrentBlock die blocks).1.Vi =
        (die.Vi.take (min (die.CBL.T.getD die.pi 0 + 1) die.Vi.length)).filter
          (fun b => !rectA_below_rectB (blocks b).bb
            ((placeCurrentBlock die blocks).2.1 (die.CBL.S.getD die.pi 0)).bb true) ++
        die.CBL.S.getD die.pi 0 ::
          die.Vi.drop (min (die.CBL.T.getD die.pi 0 + 1) die.Vi.length)) := by
  constructor
  · intro hdir
    have hchar := placeCurrentBlock_H_eq die blocks hpi hdir hplaced
    rw [hchar]
    simp only [updatePPF_Vi, updatePPF_Hi, Function.update_same]
    exact ⟨push_iff _ _ _ _, push_or _ _ _ _, trivial⟩
  · intro hdir
    have hchar := placeCurrentBlock_V_eq die blocks hpi hdir hplaced
    rw [hchar]
    simp only [updatePPF_Vi, updatePPF_Hi, Function.update_same]
    exact ⟨push_iff _ _ _ _, push_or _ _ _ _, trivial⟩

/-- Witness for C2: in the mid-decode example, placing block 1 (5×4, HORIZONTAL,
0 junctions) pushes it onto both stacks: block 0 is not strictly above it (so the
vertical stack receives it) and block 0 ends up left of it (so only the new block
returns to the horizontal stack). -/
theorem C2_witness :
    (placeCurrentBlock exDieStep exBlocksStep).1.Vi = [1, 0] ∧
    (placeCurrentBlock exDieStep exBlocksStep).1.Hi = [1] := by
  have h := (C2_placeCurrentBlock_stacks exDieStep exBlocksStep (by decide) (by decide)).1
    rfl
  constructor
  · have hv := h.1.mpr ?cond
    · simpa [exDieStep] using hv
    case cond =>
      intro b hb
      have hb0 : b = 0 := by
        simpa [exDieStep] using hb
      subst hb0
      norm_num [placeCurrentBlock, exDieStep, exBlocksStep, mkBlk, mkRect, popStack,
        updateProgressPointerFlag, rectA_below_rectB, rectsIntersectVertical,
        rectsIntersectHorizontal, rectA_leftOf_rectB, Function.update]
  · have hh := h.2.2
    rw [hh]
    norm_num [placeCurrentBlock, exDieStep, exBlocksStep, mkBlk, mkRect, popStack,
      updateProgressPointerFlag, rectA_below_rectB, rectsIntersectVertical,
      rectsIntersectHorizontal, rectA_leftOf_rectB, Function.update]

/-- The decoder's filtered maximum: it is 0 when no popped block satisfies the filter,
and otherwise the maximum of the filtered blocks' nonnegative projections.  The filter
predicate is stated twice (`p` as computed, `q` as observed) to absorb a definitional
difference in the rectangle argument. -/
theorem xpart_spec (popped : List ℕ) (p q : ℕ → Bool) (g : ℕ → ℚ)
    (hpq : ∀ b, p b = q b)
    (hnn : ∀ b ∈ popped, 0 ≤ g b) :
    ((popped.filter q = [] → ((popped.filter p).map g).foldl max 0 = 0) ∧
     (popped.filter q ≠ [] →
       ((popped.filter p).map g).foldl max 0 ∈ (popped.filter q).map g ∧
       ∀ v ∈ (popped.filter q).map g, v ≤ ((popped.filter p).map g).foldl max 0)) := by
  have hfil : popped.filter p = popped.filter q := List.filter_congr (fun b _ => hpq b)
  rw [hfil]
  constructor
  · intro hov
    rw [hov]
    rfl
  · intro hov
    have hmapne : (popped.filter q).map g ≠ [] := by
      simpa [List.map_eq_nil_iff] using hov
    have hnn' : ∀ v ∈ (popped.filter q).map g, 0 ≤ v := by
      intro v hv
      obtain ⟨b, hb, rfl⟩ := List.mem_map.mp hv
      exact hnn b (List.mem_of_mem_filter hb)
    exact foldl_max_zero_mem _ hmapne hnn'

/-- C1: for a HORIZONTAL tuple with junction count `j` on a die whose `Hi` stack has
size `s`, exactly `min (j+1) s` modules are popped (the coordinates below range over
that prefix, the remainder being the untouched `drop`); if the stack is exhausted the
placed module's bottom coordinate is 0, otherwise it is the minimum lower-left y of the
popped modules; its left coordinate is the maximum upper-right x among the popped
modules whose y-spans overlap the placed module's y-span, or 0 if none overlaps; the
VERTICAL case is the mirror image with axes and stacks swapped. -/
theorem C1_placeCurrentBlock_coords (die : CorblivarDie) (blocks : ℕ → Blk)
    (hpi : die.pi < die.CBL.S.length)
    (hplaced : (blocks (die.CBL.S.getD die.pi 0)).placed = false)
    (hnnH : ∀ b ∈ die.Hi, 0 ≤ (blocks b).bb.ur.x)
    (hnnV : ∀ b ∈ die.Vi, 0 ≤ (blocks b).bb.ur.y) :
    (die.CBL.L.getD die.pi Direction.HORIZONTAL = Direction.HORIZONTAL →
      (die.Hi.drop (min (die.CBL.T.getD die.pi 0 + 1) die.Hi.length) = [] →
        ((placeCurrentBlock die blocks).2.1 (die.CBL.S.getD die.pi 0)).bb.ll.y = 0) ∧
      (die.Hi.drop (min (die.CBL.T.getD die.pi 0 + 1) die.Hi.length) ≠ [] →
        ((placeCurrentBlock die blocks).2.1 (die.CBL.S.getD die.pi 0)).bb.ll.y ∈
          (die.Hi.take (min (die.CBL.T.getD die.pi 0 + 1) die.Hi.length)).map
            (fun b => (blocks b).bb.ll.y) ∧
        ∀ v ∈ (die.Hi.take (min (die.CBL.T.getD die.pi 0 + 1) die.Hi.length)).map
            (fun b => (blocks b).bb.ll.y),
          ((placeCurrentBlock die blocks).2.1 (die.CBL.S.getD die.pi 0)).bb.ll.y ≤ v) ∧
      ((die.Hi.take (min (die.CBL.T.getD die.pi 0 + 1) die.Hi.length)).filter
          (fun b => rectsIntersectVertical
            ((placeCurrentBlock die blocks).2.1 (die.CBL.S.getD die.pi 0)).bb
            (blocks b).bb) = [] →
        ((placeCurrentBlock die blocks).2.1 (die.CBL.S.getD die.pi 0)).bb.ll.x = 0) ∧
      ((die.Hi.take (min (die.CBL.T.getD die.pi 0 + 1) die.Hi.length)).filter
          (fun b => rectsIntersectVertical
            ((placeCurrentBlock die blocks).2.1 (die.CBL.S.getD die.pi 0)).bb
            (blocks b).bb) ≠ [] →
        ((placeCurrentBlock die blocks).2.1 (die.CBL.S.getD die.pi 0)).bb.ll.x ∈
          ((die.Hi.take (min (die.CBL.T.getD die.pi 0 + 1) die.Hi.length)).filter
            (fun b => rectsIntersectVertical
              ((placeCurrentBlock die blocks).2.1 (die.CBL.S.getD die.pi 0)).bb
              (blocks b).bb)).map (fun b => (blocks b).bb.ur.x) ∧
        ∀ v ∈ ((die.Hi.take (min (die.CBL.T.getD die.pi 0 + 1) die.Hi.length)).filter
            (fun b => rectsIntersectVertical
              ((placeCurrentBlock die blocks).2.1 (die.CBL.S.getD die.pi 0)).bb
              (blocks b).bb)).map (fun b => (blocks b).bb.ur.x),
          v ≤ ((placeCurrentBlock die blocks).2.1 (die.CBL.S.getD die.pi 0)).bb.ll.x)) ∧
    (die.CBL.L.getD die.pi Direction.HORIZONTAL = Direction.VERTICAL →
      (die.Vi.drop (min (die.CBL.T.getD die.pi 0 + 1) die.Vi.length) = [] →
        ((placeCurrentBlock die blocks).2.1 (die.CBL.S.getD die.pi 0)).bb.ll.x = 0) ∧
      (die.Vi.drop (min (die.CBL.T.getD die.pi 0 + 1) die.Vi.length) ≠ [] →
        ((placeCurrentBlock die blocks).2.1 (die.CBL.S.getD die.pi 0)).bb.ll.x ∈
          (die.Vi.take (min (die.CBL.T.getD die.pi 0 + 1) die.Vi.length)).map
            (fun b => (blocks b).bb.ll.x) ∧
        ∀ v ∈ (die.Vi.take (min (die.CBL.T.getD die.pi 0 + 1) die.Vi.length)).map
            (fun b => (blocks b).bb.ll.x),
          ((placeCurrentBlock die blocks).2.1 (die.CBL.S.getD die.pi 0)).bb.ll.x ≤ v) ∧
      ((die.Vi.take (min (die.CBL.T.getD die.pi 0 + 1) die.Vi.length)).filter
          (fun b => rectsIntersectHorizontal
            ((placeCurrentBlock die blocks).2.1 (die.CBL.S.getD die.pi 0)).bb
            (blocks b).bb) = [] →
        ((placeCurrentBlock die blocks).2.1 (die.CBL.S.getD die.pi 0)).bb.ll.y = 0) ∧
      ((die.Vi.take (min (die.CBL.T.getD die.pi 0 + 1) die.Vi.length)).filter
          (fun b => rectsIntersectHorizontal
            ((placeCurrentBlock die blocks).2.1 (die.CBL.S.getD die.pi 0)).bb
            (blocks b).bb) ≠ [] →
        ((placeCurrentBlock die blocks).2.1 (die.CBL.S.getD die.pi 0)).bb.ll.y ∈
          ((die.Vi.take (min (die.CBL.T.getD die.pi 0 + 1) die.Vi.length)).filter
            (fun b => rectsIntersectHorizontal
              ((placeCurrentBlock die blocks).2.1 (die.CBL.S.getD die.pi 0)).bb
              (blocks b).bb)).map (fun b => (blocks b).bb.ur.y) ∧
        ∀ v ∈ ((die.Vi.take (min (die.CBL.T.getD die.pi 0 + 1) die.Vi.length)).filter
            (fun b => rectsIntersectHorizontal
              ((placeCurrentBlock die blocks).2.1 (die.CBL.S.getD die.pi 0)).bb
              (blocks b).bb)).map (fun b => (blocks b).bb.ur.y),
          v ≤ ((placeCurrentBlock die blocks).2.1 (die.CBL.S.getD die.pi 0)).bb.ll.y)) := by
  have hdropde : ∀ (l : List ℕ) (j : ℕ),
      l.drop (min (j + 1) l.length) ≠ [] → l.take (min (j + 1) l.length) ≠ [] := by
    intro l j hdrop htake
    rcases List.take_eq_nil_iff.mp htake with h0 | h0
    · have : l.length = 0 := by omega
      rw [List.length_eq_zero] at this
      subst this
      simp at hdrop
    · subst h0
      simp at hdrop
  constructor
  · intro hdir
    have hchar := placeCurrentBlock_H_eq die blocks hpi hdir hplaced
    rw [hchar]
    simp only [Function.update_same]
    refine ⟨?_, ?_, ?_, ?_⟩
    · intro h
      rw [if_pos (by rw [h]; rfl)]
    · intro h
      have hie : ¬((die.Hi.drop (min (die.CBL.T.getD die.pi 0 + 1) die.Hi.length)).isEmpty
          = true) := by
        rw [List.isEmpty_iff]
        exact h
      rw [if_neg hie]
      cases hpop : die.Hi.take (min (die.CBL.T.getD die.pi 0 + 1) die.Hi.length) with
      | nil => exact absurd hpop (hdropde die.Hi (die.CBL.T.getD die.pi 0) h)
      | cons r0 rs =>
          constructor
          · have hm := foldl_min_mem ((blocks r0).bb.ll.y)
              (rs.map (fun b => (blocks b).bb.ll.y))
            rw [List.foldl_map] at hm
            simpa using hm
          · intro v hv
            have hv2 : v ∈ (blocks r0).bb.ll.y ::
                rs.map (fun b => (blocks b).bb.ll.y) := by simpa using hv
            have hb := foldl_min_le ((blocks r0).bb.ll.y)
              (rs.map (fun b => (blocks b).bb.ll.y)) v hv2
            rw [List.foldl_map] at hb
            simpa using hb
    · exact (xpart_spec _ _ _ _ (fun b => rfl)
        (fun b hb => hnnH b (List.take_subset _ _ hb))).1
    · exact (xpart_spec _ _ _ _ (fun b => rfl)
        (fun b hb => hnnH b (List.take_subset _ _ hb))).2
  · intro hdir
    have hchar := placeCurrentBlock_V_eq die blocks hpi hdir hplaced
    rw [hchar]
    simp only [Function.update_same]
    refine ⟨?_, ?_, ?_, ?_⟩
    · intro h
      rw [if_pos (by rw [h]; rfl)]
    · intro h
      have hie : ¬((die.Vi.drop (min (die.CBL.T.getD die.pi 0 + 1) die.Vi.length)).isEmpty
          = true) := by
        rw [List.isEmpty_iff]
        exact h
      rw [if_neg hie]
      cases hpop : die.Vi.take (min (die.CBL.T.getD die.pi 0 + 1) die.Vi.length) with
      | nil => exact absurd hpop (hdropde die.Vi (die.CBL.T.getD die.pi 0) h)
      | cons r0 rs =>
          constructor
          · have hm := foldl_min_mem ((blocks r0).bb.ll.x)
              (rs.map (fun b => (blocks b).bb.ll.x))
            rw [List.foldl_map] at hm
            simpa using hm
          · intro v hv
            have hv2 : v ∈ (blocks r0).bb.ll.x ::
                rs.map (fun b => (blocks b).bb.ll.x) := by simpa using hv
            have hb := foldl_min_le ((blocks r0).bb.ll.x)
              (rs.map (fun b => (blocks b).bb.ll.x)) v hv2
            rw [List.foldl_map] at hb
            simpa using hb
    · exact (xpart_spec _ _ _ _ (fun b => rfl)
        (fun b hb => hnnV b (List.take_subset _ _ hb))).1
    · exact (xpart_spec _ _ _ _ (fun b => rfl)
        (fun b hb => hnnV b (List.take_subset _ _ hb))).2

/-- Witness for C1: in the mid-decode example the single stacked block 0 is popped
(`min (0+1) 1 = 1`), the stack is exhausted so block 1's bottom lands at 0, and
block 0's y-span overlaps block 1's span, so block 1's left edge lands on block 0's
right front x = 10. -/
theorem C1_witness :
    ((placeCurrentBlock exDieStep exBlocksStep).2.1 1).bb.ll.y = 0 ∧
    ((placeCurrentBlock exDieStep exBlocksStep).2.1 1).bb.ll.x = 10 := by
  have h := (C1_placeCurrentBlock_coords exDieStep exBlocksStep (by decide) (by decide)
    (by
      intro b hb
      have hb0 : b = 0 := by simpa [exDieStep] using hb
      subst hb0
      norm_num [exBlocksStep, mkBlk, mkRect])
    (by
      intro b hb
      have hb0 : b = 0 := by simpa [exDieStep] using hb
      subst hb0
      norm_num [exBlocksStep, mkBlk, mkRect])).1 rfl
  refine ⟨h.1 (by decide), ?_⟩
  have h4 := h.2.2.2 ?fil
  case fil =>
    norm_num [placeCurrentBlock, exDieStep, exBlocksStep, mkBlk, mkRect, popStack,
      updateProgressPointerFlag, rectsIntersectVertical, rectsIntersectHorizontal,
      rectA_below_rectB, rectA_leftOf_rectB, Function.update]
  obtain ⟨hmem, hub⟩ := h4
  have hlist : (exDieStep.Hi.take
      (min (exDieStep.CBL.T.getD exDieStep.pi 0 + 1) exDieStep.Hi.length)).filter
      (fun b => rectsIntersectVertical
        ((placeCurrentBlock exDieStep exBlocksStep).2.1
          (exDieStep.CBL.S.getD exDieStep.pi 0)).bb
        (exBlocksStep b).bb) = [0] := by
    norm_num [placeCurrentBlock, exDieStep, exBlocksStep, mkBlk, mkRect, popStack,
      updateProgressPointerFlag, rectsIntersectVertical, rectsIntersectHorizontal,
      rectA_below_rectB, rectA_leftOf_rectB, Function.update]
  rw [hlist] at hmem
  simp only [List.map_cons, List.map_nil, List.mem_singleton] at hmem
  rw [show exDieStep.CBL.S.getD exDieStep.pi 0 = 1 from rfl] at hmem
  rw [hmem]
  norm_num [exBlocksStep, mkBlk, mkRect]

end Corblivar
